import Mathlib

/-!
Verification development for the Submarine operator controller
(src/submarine-cloud-v2/controller.go).

The controller is a Kubernetes sample-controller-style reconciliation
loop: an informer feeds Add/Update notifications into a rate-limited
workqueue, `Run` waits for the informer cache to sync and then spawns
worker goroutines, each worker repeatedly calls `processNextWorkItem`,
which dequeues a key, invokes `syncHandler` on it, and releases the item.

The embedding below translates each Go function into a Lean function
that returns the sequence of observable operations (workqueue calls,
log/error-handler calls) it performs, together with its result.
Go control flow — `defer`, early `return`, and panics (nil-pointer
dereference) — is made explicit in the traces: a deferred call runs on
every exit path of its function, including panic unwinding, and a panic
that no enclosing function recovers propagates to the caller.
-/

/-! ## Keys and key splitting

`cache.SplitMetaNamespaceKey` (k8s.io/client-go/tools/cache) splits a
key on "/": one segment means cluster-scoped (empty namespace), two
segments mean namespace/name, anything else is an error. -/

/-- Splitting a character list on the slash character, as
`strings.Split(key, "/")` does: returns the list of segments, with an
empty segment between adjacent slashes and at the ends. -/
def splitOnSlash : List Char → List (List Char)
  | [] => [[]]
  | c :: rest =>
    match splitOnSlash rest with
    | [] => [[]]
    | g :: gs => if c = '/' then [] :: g :: gs else (c :: g) :: gs

/-- Embedding of `cache.SplitMetaNamespaceKey`: one segment means
cluster-scoped (empty namespace), two segments mean namespace/name, and
`none` models the error return for a malformed key (more than one
slash). -/
def splitMetaNamespaceKey (key : String) : Option (String × String) :=
  match splitOnSlash key.data with
  | [name] => some ("", String.mk name)
  | [ns, name] => some (String.mk ns, String.mk name)
  | _ => none

/-! ## The lister and syncHandler (controller.go lines 199-227) -/

/-- Result of `c.submarinesLister.Submarines(namespace).Get(name)`:
either the Submarine object is found (we abstract its Spec as a
string payload), or the lookup fails with a not-found error, or it
fails with some other error.  On any error the returned object
pointer is nil. -/
inductive ListerResult where
  | found (spec : String)
  | notFoundErr
  | otherErr
deriving DecidableEq, Repr

/-- Observable events of one `syncHandler` call: the two
`utilruntime.HandleError` log events, the `klog.Info("syncHandler: ", key)`
line, and the `fmt.Println` of the marshalled Spec. -/
inductive SyncEv where
  | handleErrorInvalidKey (key : String)
  | handleErrorNoLongerExists (key : String)
  | klogSyncing (key : String)
  | printSpec (spec : String)
deriving DecidableEq, Repr

/-- How a `syncHandler` call terminates: it returns `nil` (the function
has no non-nil return), or it panics dereferencing the nil `submarine`
pointer at `submarine.Spec`. -/
inductive SyncOutcome where
  | returnedNil
  | panickedNilDeref
deriving DecidableEq, Repr

/-- One run of `syncHandler`: its event trace and how it terminated. -/
structure SyncRun where
  events : List SyncEv
  outcome : SyncOutcome
deriving DecidableEq, Repr

/-- Embedding of `Controller.syncHandler` (controller.go lines 199-227),
parameterised by the lister.  Control flow, in source order:
`SplitMetaNamespaceKey` error → HandleError and return nil;
lister error that IsNotFound → HandleError and return nil;
lister error that is not IsNotFound → the `if err != nil` block falls
through without returning, `klog.Info` runs, and `json.MarshalIndent(submarine.Spec)`
dereferences the nil `submarine` pointer — a panic;
success → `klog.Info`, marshal and print the Spec, return nil. -/
def syncHandler (lister : String → String → ListerResult) (key : String) : SyncRun :=
  match splitMetaNamespaceKey key with
  | none => { events := [.handleErrorInvalidKey key], outcome := .returnedNil }
  | some (ns, name) =>
    match lister ns name with
    | .notFoundErr => { events := [.handleErrorNoLongerExists key], outcome := .returnedNil }
    | .otherErr => { events := [.klogSyncing key], outcome := .panickedNilDeref }
    | .found sp => { events := [.klogSyncing key, .printSpec sp], outcome := .returnedNil }

/-! ## processNextWorkItem (controller.go lines 171-194) -/

/-- Behaviour of the `c.syncHandler(key)` call as seen by
`processNextWorkItem`: it either returns an error value (possibly nil —
the caller discards it either way) or panics. -/
inductive SyncBehavior where
  | returns (err : Option String)
  | panics
deriving DecidableEq, Repr

/-- Observable workqueue and log operations of one `processNextWorkItem`
call. -/
inductive WEv where
  | getEv (k : String)
  | doneEv (k : String)
  | forgetEv (k : String)
  | addRateLimitedEv (k : String)
  | addEv (k : String)
  | syncEv (k : String)
  | logSyncedEv (k : String)
deriving DecidableEq, Repr

/-- How a `processNextWorkItem` call ends: `cont` for `return true`,
`stop` for `return false` (queue shut down), `panicked` when a panic in
the processing block propagates out of the function (nothing in
`processNextWorkItem` recovers). -/
inductive StepResult where
  | cont
  | stop
  | panicked
deriving DecidableEq, Repr

/-- One `processNextWorkItem` call: trace of operations plus result. -/
structure WorkerStep where
  trace : List WEv
  result : StepResult
deriving DecidableEq, Repr

/-- Embedding of `Controller.processNextWorkItem` (controller.go lines
171-194).  `front` is what `workqueue.Get` returns (`none` = shutdown).
The inner closure defers `workqueue.Done(obj)` — so `Done` is emitted on
both the normal path (after `Forget` and the success log) and the panic
path (during unwinding, after which the panic propagates).  The closure
body ignores `syncHandler`'s returned error and always returns `nil`,
so the `if err != nil` branch is dead and the function returns `true`. -/
def processNextWorkItem (front : Option String) (sync : String → SyncBehavior) : WorkerStep :=
  match front with
  | none => { trace := [], result := .stop }
  | some k =>
    match sync k with
    | .returns _ =>
      { trace := [.getEv k, .syncEv k, .forgetEv k, .logSyncedEv k, .doneEv k]
        result := .cont }
    | .panics =>
      { trace := [.getEv k, .syncEv k, .doneEv k]
        result := .panicked }

/-- The `SyncBehavior` that the real `syncHandler` exhibits: it returns
nil on every non-panicking path, and panics on the nil dereference. -/
def syncBehaviorOf (lister : String → String → ListerResult) (k : String) : SyncBehavior :=
  match (syncHandler lister k).outcome with
  | .returnedNil => .returns none
  | .panickedNilDeref => .panics

/-- One worker iteration with the real `syncHandler` plugged in. -/
def workerStep (lister : String → String → ListerResult) (front : Option String) : WorkerStep :=
  processNextWorkItem front (syncBehaviorOf lister)

/-! ## Run (controller.go lines 107-159) -/

/-- Observable events of `Run`, in source order: the
`cache.WaitForCacheSync` wait (with its outcome), the hardcoded Helm
install / sleep / uninstall demonstration, the `go wait.Until(c.runWorker, ...)`
spawns, the block on `<-stopCh`, and the deferred `c.workqueue.ShutDown()`. -/
inductive RunEvent where
  | waitSyncEv (ok : Bool)
  | helmInstallEv
  | sleepEv (seconds : Nat)
  | helmUninstallEv
  | spawnWorkerEv (i : Nat)
  | waitStopEv
  | shutDownEv
deriving DecidableEq, Repr

/-- Result of a `Run` call: the returned error (`none` = nil) and the
trace of events. -/
structure RunResult where
  err : Option String
  trace : List RunEvent
deriving DecidableEq, Repr

/-- Embedding of `Controller.Run` (controller.go lines 107-159),
parameterised by whether `cache.WaitForCacheSync` reports success
(`syncOk`).  On sync failure `Run` returns
`fmt.Errorf("failed to wait for caches to sync")` before anything else
runs; the deferred `ShutDown` still fires.  On success it performs the
Helm demonstration, spawns `threadiness` workers, blocks on the stop
channel, and returns nil. -/
def Run (threadiness : Nat) (syncOk : Bool) : RunResult :=
  if syncOk then
    { err := none
      trace := [.waitSyncEv true, .helmInstallEv, .sleepEv 60, .helmUninstallEv]
        ++ (List.range threadiness).map .spawnWorkerEv
        ++ [.waitStopEv, .shutDownEv] }
  else
    { err := some "failed to wait for caches to sync"
      trace := [.waitSyncEv false, .shutDownEv] }

/-! ## Enqueue path and event-handler registration (controller.go lines 93-100, 232-243) -/

/-- Metadata of a notified object: namespace and name. -/
structure ObjectMeta where
  ns : String
  name : String
deriving DecidableEq, Repr

/-- An object delivered by the informer: either it carries object
metadata, or `cache.MetaNamespaceKeyFunc` fails on it. -/
inductive NotifObject where
  | withMeta (m : ObjectMeta)
  | noMeta
deriving DecidableEq, Repr

/-- Embedding of `cache.MetaNamespaceKeyFunc`: namespace-qualified key
`ns/name`, or just `name` for cluster-scoped objects, or an error when
the object has no accessible metadata. -/
def metaNamespaceKeyFunc : NotifObject → Option String
  | .withMeta m => some (if m.ns = "" then m.name else m.ns ++ "/" ++ m.name)
  | .noMeta => none

/-- Calls made by the enqueue path on its collaborators. -/
inductive QueueCall where
  | addCall (k : String)
  | handleErrorCall
deriving DecidableEq, Repr

/-- Embedding of `Controller.enqueueSubmarine` (controller.go lines
232-243): derive the key with `MetaNamespaceKeyFunc`; on error,
`HandleError` and return; otherwise `workqueue.Add(key)`. -/
def enqueueSubmarine (obj : NotifObject) : List QueueCall :=
  match metaNamespaceKeyFunc obj with
  | none => [.handleErrorCall]
  | some k => [.addCall k]

/-- Embedding of `cache.ResourceEventHandlerFuncs`: each of the three
handlers is optional; an unset handler means the corresponding
notification is ignored. -/
structure ResourceEventHandlerFuncs where
  addFunc : Option (NotifObject → List QueueCall)
  updateFunc : Option (NotifObject → NotifObject → List QueueCall)
  deleteFunc : Option (NotifObject → List QueueCall)

/-- The handler set registered in `NewController` (controller.go lines
95-100): `AddFunc: controller.enqueueSubmarine`,
`UpdateFunc: func(old, new interface{}) { controller.enqueueSubmarine(new) }`,
and no `DeleteFunc`. -/
def submarineEventHandlers : ResourceEventHandlerFuncs :=
  { addFunc := some enqueueSubmarine
    updateFunc := some (fun _old new => enqueueSubmarine new)
    deleteFunc := none }

/-- A notification from the informer. -/
inductive Notification where
  | addN (obj : NotifObject)
  | updateN (old new : NotifObject)
  | deleteN (obj : NotifObject)

/-- Dispatching a notification through a `ResourceEventHandlerFuncs`
value: an unset handler produces no calls. -/
def dispatch (h : ResourceEventHandlerFuncs) : Notification → List QueueCall
  | .addN o =>
    match h.addFunc with
    | some f => f o
    | none => []
  | .updateN o n =>
    match h.updateFunc with
    | some f => f o n
    | none => []
  | .deleteN o =>
    match h.deleteFunc with
    | some f => f o
    | none => []

/-! ## The Dedup Retry Queue (three-state model)

The controller's workqueue is created in `NewController` (controller.go
line 89) as `workqueue.NewNamedRateLimitingQueue(...)`; its
implementation lives in the k8s.io/client-go library, outside this
repository's sources.  The specification describes it as a
pending/processing/dirty three-state queue; the definitions below model
that queue and the worker pool around it as a labelled transition
system, and the mutual-exclusion property is proved as an invariant of
every reachable state. -/

/-- Modelled from the spec: state of the Dedup Retry Queue (the
k8s.io/client-go workqueue used at controller.go line 89, whose
implementation is not part of this repository's sources) together with
the worker pool.  `pending` is the ordered set of keys awaiting a
worker, `holders` records which worker is currently processing which
key (the *processing* set), and `dirty` holds keys re-added while
processing, to be redelivered after the current processing completes. -/
structure QState where
  pending : List String
  holders : List (Nat × String)
  dirty : List String
deriving DecidableEq, Repr

/-- The initial queue state: nothing pending, nothing processing. -/
def QState.initial : QState := ⟨[], [], []⟩

/-- The keys currently held as *processing* by some worker. -/
def holderKeys (s : QState) : List String := s.holders.map Prod.snd

/-- How many workers are currently processing key `k`. -/
def holdersFor (s : QState) (k : String) : Nat := (holderKeys s).count k

/-- Removing the first occurrence of an element from a list (the queue
releases exactly one processing marker at a time). -/
def removeFirst {α : Type} [DecidableEq α] : List α → α → List α
  | [], _ => []
  | b :: t, a => if b = a then t else b :: removeFirst t a

/-- Actions on the queue: `Add(k)` from the enqueue path, `Get`
returning `k` to worker `w`, and worker `w` calling `Done(k)`. -/
inductive QAct where
  | add (k : String)
  | get (w : Nat) (k : String)
  | done (w : Nat) (k : String)
deriving DecidableEq, Repr

/-- Modelled from the spec: the transition relation of the Dedup Retry
Queue.  `Add(k)` marks `k` dirty if it is currently processing,
inserts it into `pending` if absent, and is a no-op if already pending.
`Get` hands a pending key to an idle worker, moving it from pending to
processing.  `Done(w, k)` releases the processing marker and, if `k`
was marked dirty meanwhile, immediately re-adds it to pending. -/
inductive QStep : QState → QAct → QState → Prop where
  | addProcessing (s : QState) (k : String) :
      k ∈ holderKeys s →
      QStep s (.add k) ⟨s.pending, s.holders, s.dirty.insert k⟩
  | addPending (s : QState) (k : String) :
      k ∉ holderKeys s → k ∉ s.pending →
      QStep s (.add k) ⟨s.pending ++ [k], s.holders, s.dirty⟩
  | addDupPending (s : QState) (k : String) :
      k ∉ holderKeys s → k ∈ s.pending →
      QStep s (.add k) s
  | getStep (s : QState) (w : Nat) (k : String) :
      k ∈ s.pending → (∀ k', (w, k') ∉ s.holders) →
      QStep s (.get w k) ⟨removeFirst s.pending k, (w, k) :: s.holders, s.dirty⟩
  | doneStep (s : QState) (w : Nat) (k : String) :
      (w, k) ∈ s.holders →
      QStep s (.done w k)
        ⟨if k ∈ s.dirty then s.pending ++ [k] else s.pending,
         removeFirst s.holders (w, k),
         removeFirst s.dirty k⟩

/-- A queue state reachable from the initial state by queue actions. -/
inductive QReachable : QState → Prop where
  | init : QReachable QState.initial
  | step {s s' : QState} {a : QAct} : QReachable s → QStep s a s' → QReachable s'

/-- The inductive invariant: pending keys are distinct, no pending key
is simultaneously processing, and no key is processed by two workers. -/
def QInv (s : QState) : Prop :=
  s.pending.Nodup ∧
  (∀ k, k ∈ s.pending → k ∉ holderKeys s) ∧
  (holderKeys s).Nodup

/-! ## Theorems -/

theorem mem_of_mem_removeFirst {α : Type} [DecidableEq α] {x a : α} {l : List α}
    (h : x ∈ removeFirst l a) : x ∈ l := by
  induction l with
  | nil => simp [removeFirst] at h
  | cons b t ih =>
    by_cases hba : b = a
    · subst hba
      simp only [removeFirst, if_pos rfl] at h
      exact List.mem_cons_of_mem _ h
    · simp only [removeFirst, if_neg hba, List.mem_cons] at h ⊢
      rcases h with h | h
      · exact Or.inl h
      · exact Or.inr (ih h)

theorem removeFirst_nodup {α : Type} [DecidableEq α] (a : α) {l : List α} (h : l.Nodup) :
    (removeFirst l a).Nodup := by
  induction l with
  | nil => simp [removeFirst]
  | cons b t ih =>
    rw [List.nodup_cons] at h
    by_cases hba : b = a
    · subst hba
      simpa only [removeFirst, if_pos rfl] using h.2
    · simp only [removeFirst, if_neg hba]
      rw [List.nodup_cons]
      exact ⟨fun hm => h.1 (mem_of_mem_removeFirst hm), ih h.2⟩

theorem not_mem_removeFirst_self {α : Type} [DecidableEq α] {a : α} {l : List α}
    (h : l.Nodup) : a ∉ removeFirst l a := by
  induction l with
  | nil => simp [removeFirst]
  | cons b t ih =>
    rw [List.nodup_cons] at h
    by_cases hba : b = a
    · subst hba
      simpa only [removeFirst, if_pos rfl] using h.1
    · simp only [removeFirst, if_neg hba, List.mem_cons]
      rintro (h1 | h1)
      · exact hba h1.symm
      · exact ih h.2 h1

theorem perm_cons_removeFirst {α : Type} [DecidableEq α] {a : α} {l : List α}
    (h : a ∈ l) : List.Perm l (a :: removeFirst l a) := by
  induction l with
  | nil => simp at h
  | cons b t ih =>
    by_cases hba : b = a
    · subst hba
      simp [removeFirst]
    · have hat : a ∈ t := by
        rcases List.mem_cons.mp h with h1 | h1
        · exact absurd h1.symm hba
        · exact h1
      simp only [removeFirst, if_neg hba]
      exact ((ih hat).cons b).trans (List.Perm.swap a b (removeFirst t a))

theorem qinv_initial : QInv QState.initial := by
  refine ⟨List.nodup_nil, ?_, List.nodup_nil⟩
  intro k hk
  simp [QState.initial] at hk

theorem qinv_step {s s' : QState} {a : QAct} (hinv : QInv s) (hstep : QStep s a s') :
    QInv s' := by
  obtain ⟨hnd, hdisj, hkeys⟩ := hinv
  cases hstep with
  | addProcessing k hk =>
    exact ⟨hnd, hdisj, hkeys⟩
  | addPending k hk hp =>
    refine ⟨?_, ?_, hkeys⟩
    · rw [List.nodup_append]
      exact ⟨hnd, List.nodup_singleton k, fun a ha hb => by
        rw [List.mem_singleton] at hb
        exact hp (hb ▸ ha)⟩
    · intro k' hk'
      rcases List.mem_append.mp hk' with h | h
      · exact hdisj k' h
      · rw [List.mem_singleton] at h
        exact h ▸ hk
  | addDupPending k hk hp =>
    exact ⟨hnd, hdisj, hkeys⟩
  | getStep w k hkp hidle =>
    refine ⟨removeFirst_nodup k hnd, ?_, ?_⟩
    · intro k' hk'
      have hk'p : k' ∈ s.pending := mem_of_mem_removeFirst hk'
      have hk'ne : k' ≠ k := by
        rintro rfl
        exact not_mem_removeFirst_self hnd hk'
      show k' ∉ k :: holderKeys s
      rw [List.mem_cons]
      rintro (h | h)
      · exact hk'ne h
      · exact hdisj k' hk'p h
    · show (k :: holderKeys s).Nodup
      rw [List.nodup_cons]
      exact ⟨hdisj k hkp, hkeys⟩
  | doneStep w k hmem =>
    have hkmem : k ∈ holderKeys s := List.mem_map.mpr ⟨(w, k), hmem, rfl⟩
    have hknp : k ∉ s.pending := fun hp => hdisj k hp hkmem
    have hperm : List.Perm s.holders ((w, k) :: removeFirst s.holders (w, k)) :=
      perm_cons_removeFirst hmem
    have hkeysperm :
        List.Perm (holderKeys s) (k :: (removeFirst s.holders (w, k)).map Prod.snd) := by
      simpa using hperm.map Prod.snd
    have hnodcons : (k :: (removeFirst s.holders (w, k)).map Prod.snd).Nodup :=
      hkeysperm.nodup_iff.mp hkeys
    rw [List.nodup_cons] at hnodcons
    obtain ⟨hknotin, hkeysnew⟩ := hnodcons
    have hsub : ∀ x, x ∈ (removeFirst s.holders (w, k)).map Prod.snd → x ∈ holderKeys s := by
      intro x hx
      exact hkeysperm.mem_iff.mpr (List.mem_cons_of_mem k hx)
    refine ⟨?_, ?_, hkeysnew⟩
    · by_cases hd : k ∈ s.dirty
      · simp only [hd, if_pos]
        rw [List.nodup_append]
        exact ⟨hnd, List.nodup_singleton k, fun a ha hb => by
          rw [List.mem_singleton] at hb
          exact hknp (hb ▸ ha)⟩
      · simpa [hd] using hnd
    · intro k' hk'
      by_cases hd : k ∈ s.dirty
      · simp only [hd, if_pos] at hk'
        rcases List.mem_append.mp hk' with h | h
        · intro hmem'
          exact hdisj k' h (hsub k' hmem')
        · rw [List.mem_singleton] at h
          exact h ▸ hknotin
      · simp only [hd, if_neg, not_false_iff] at hk'
        intro hmem'
        exact hdisj k' hk' (hsub k' hmem')

theorem qreachable_inv {s : QState} (h : QReachable s) : QInv s := by
  induction h with
  | init => exact qinv_initial
  | step _ hstep ih => exact qinv_step ih hstep

/-- Claim C1: for every item a worker dequeues, `processNextWorkItem`
ignores `syncHandler`'s returned error and unconditionally calls
`Forget(key)`, never `AddRateLimited(key)` — the whole step is
independent of the error `syncHandler` returns, so the spec's
success-vs-retriable-failure distinction is not implemented. -/
theorem c1_worker_forgets_unconditionally (k : String) (e : Option String) :
    WEv.forgetEv k ∈ (processNextWorkItem (some k) (fun _ => SyncBehavior.returns e)).trace ∧
    (∀ k', WEv.addRateLimitedEv k'
      ∉ (processNextWorkItem (some k) (fun _ => SyncBehavior.returns e)).trace) ∧
    processNextWorkItem (some k) (fun _ => SyncBehavior.returns e)
      = processNextWorkItem (some k) (fun _ => SyncBehavior.returns none) := by
  refine ⟨?_, ?_, rfl⟩
  · simp [processNextWorkItem]
  · intro k'
    simp [processNextWorkItem]

/-- Claim C2, counterexample to the claim as stated: a panic raised
during reconciliation is not caught inside the processing block and not
converted into a retriable failure — at the concrete dequeued key
"default/example-submarine", a panicking `syncHandler` makes the step
end in a propagating panic, with no `AddRateLimited` call. -/
theorem c2_panic_not_retriable_counterexample :
    (processNextWorkItem (some "default/example-submarine")
      (fun _ => SyncBehavior.panics)).result = StepResult.panicked ∧
    (processNextWorkItem (some "default/example-submarine")
      (fun _ => SyncBehavior.panics)).result ≠ StepResult.cont ∧
    WEv.addRateLimitedEv "default/example-submarine"
      ∉ (processNextWorkItem (some "default/example-submarine")
          (fun _ => SyncBehavior.panics)).trace := by
  refine ⟨rfl, ?_, ?_⟩ <;> simp [processNextWorkItem]

/-- Claim C2 (amended): for every item obtained from `workqueue.Get`,
the worker calls `Done(item)` exactly once, as the last operation of the
processing block, on every exit path — including a panic during
reconciliation, because `Done` is deferred; but the panic is *not*
converted into a retriable failure: no `AddRateLimited` is ever called
and the panic propagates out of `processNextWorkItem`. -/
theorem c2_done_exactly_once (k : String) (sync : String → SyncBehavior) :
    (processNextWorkItem (some k) sync).trace.count (WEv.doneEv k) = 1 ∧
    (processNextWorkItem (some k) sync).trace.getLast? = some (WEv.doneEv k) ∧
    (∀ k', WEv.addRateLimitedEv k' ∉ (processNextWorkItem (some k) sync).trace) ∧
    (sync k = SyncBehavior.panics →
      (processNextWorkItem (some k) sync).result = StepResult.panicked) := by
  cases hs : sync k with
  | returns e =>
    refine ⟨?_, ?_, ?_, ?_⟩ <;> simp [processNextWorkItem, hs]
  | panics =>
    refine ⟨?_, ?_, ?_, ?_⟩ <;> simp [processNextWorkItem, hs]

/-- Witness for the amended C2 theorem at a concrete input. -/
theorem c2_done_exactly_once_witness :
    (processNextWorkItem (some "default/example-submarine")
      (fun _ => SyncBehavior.panics)).result = StepResult.panicked :=
  (c2_done_exactly_once "default/example-submarine" (fun _ => SyncBehavior.panics)).2.2.2 rfl

/-- Claim C3: in every reachable state of the Dedup Retry Queue model,
at most one worker is processing any key K; an `Add(K)` arriving while
K is processing marks K dirty (so it is redelivered, not run
concurrently), and `Done(K)` with K dirty re-adds K to pending. -/
theorem c3_no_concurrent_duplicate_processing (s : QState) (h : QReachable s) :
    (∀ k, holdersFor s k ≤ 1) ∧
    (∀ k s', k ∈ holderKeys s → QStep s (QAct.add k) s' → k ∈ s'.dirty) ∧
    (∀ w k s', QStep s (QAct.done w k) s' → k ∈ s.dirty → k ∈ s'.pending) := by
  have hinv := qreachable_inv h
  refine ⟨?_, ?_, ?_⟩
  · intro k
    exact List.nodup_iff_count_le_one.mp hinv.2.2 k
  · intro k s' hk hstep
    revert hk
    cases hstep with
    | addProcessing k2 h2 =>
      intro hk
      exact List.mem_insert_self _ _
    | addPending k2 hnk hp =>
      intro hk
      exact absurd hk hnk
    | addDupPending k2 hnk hp =>
      intro hk
      exact absurd hk hnk
  · intro w k s' hstep hdirty
    revert hdirty
    cases hstep with
    | doneStep w2 k2 h2 =>
      intro hdirty
      simp [hdirty]

/-- Witness for the C3 theorem: the state reached from the initial
queue by one `Add` step satisfies the mutual-exclusion bound. -/
theorem c3_no_concurrent_duplicate_processing_witness :
    holdersFor ⟨["default/example-submarine"], [], []⟩ "default/example-submarine" ≤ 1 := by
  have hstep : QStep QState.initial (QAct.add "default/example-submarine")
      ⟨["default/example-submarine"], [], []⟩ := by
    have h := QStep.addPending QState.initial "default/example-submarine"
      (by simp [holderKeys, QState.initial]) (by simp [QState.initial])
    simpa [QState.initial] using h
  exact (c3_no_concurrent_duplicate_processing _
    (QReachable.step QReachable.init hstep)).1 "default/example-submarine"

/-- Claim C4: `Run` returns a non-nil error exactly when the startup
cache sync fails, and a worker iteration whose `syncHandler` returns an
error (even a non-nil one) still ends with `return true` — steady-state
reconcile errors are absorbed inside the worker loop and never reach
`Run`'s return value. -/
theorem c4_run_error_iff_sync_failure (t : Nat) (s : Bool) (k : String) (e : Option String) :
    ((Run t s).err.isSome ↔ s = false) ∧
    (processNextWorkItem (some k) (fun _ => SyncBehavior.returns e)).result
      = StepResult.cont := by
  constructor
  · cases s <;> simp [Run]
  · simp [processNextWorkItem]

/-- Claim C5: when the cache never syncs, `Run` returns the fatal
startup error and spawns no worker; and any spawned worker in any run
implies the sync succeeded, with the successful sync wait as the very
first event of the run. -/
theorem c5_no_workers_before_sync (t : Nat) :
    (∀ i, RunEvent.spawnWorkerEv i ∉ (Run t false).trace) ∧
    (Run t false).err = some "failed to wait for caches to sync" ∧
    (∀ (s : Bool) (i j : Nat),
      (Run t s).trace.get? j = some (RunEvent.spawnWorkerEv i) →
      s = true ∧ (Run t s).trace.get? 0 = some (RunEvent.waitSyncEv true)) := by
  refine ⟨?_, rfl, ?_⟩
  · intro i
    simp [Run]
  · intro s i j hj
    cases s with
    | false =>
      exfalso
      have hmem : RunEvent.spawnWorkerEv i ∈ (Run t false).trace := List.get?_mem hj
      simp [Run] at hmem
    | true =>
      exact ⟨rfl, rfl⟩

/-- Witness for the C5 theorem at concrete inputs: with two workers and
a failed sync there is no spawn event, and in a successful run the
spawn event at index 4 forces the first event to be the successful
sync wait. -/
theorem c5_no_workers_before_sync_witness :
    RunEvent.spawnWorkerEv 0 ∉ (Run 2 false).trace ∧
    (Run 2 true).trace.get? 0 = some (RunEvent.waitSyncEv true) :=
  ⟨(c5_no_workers_before_sync 2).1 0,
   ((c5_no_workers_before_sync 2).2.2 true 0 4 rfl).2⟩

/-- Claim C6: when the resource was deleted between enqueue and
processing (lister returns not-found), `syncHandler` logs the event and
returns nil — treated as success — and the worker step calls
`Forget(key)`, never `AddRateLimited` or a re-`Add`, and continues. -/
theorem c6_not_found_treated_as_success
    (lister : String → String → ListerResult) (key ns name : String)
    (h1 : splitMetaNamespaceKey key = some (ns, name))
    (h2 : lister ns name = ListerResult.notFoundErr) :
    (syncHandler lister key).outcome = SyncOutcome.returnedNil ∧
    (syncHandler lister key).events = [SyncEv.handleErrorNoLongerExists key] ∧
    WEv.forgetEv key ∈ (workerStep lister (some key)).trace ∧
    WEv.addRateLimitedEv key ∉ (workerStep lister (some key)).trace ∧
    WEv.addEv key ∉ (workerStep lister (some key)).trace ∧
    (workerStep lister (some key)).result = StepResult.cont := by
  have hsync : syncHandler lister key
      = { events := [.handleErrorNoLongerExists key], outcome := .returnedNil } := by
    simp [syncHandler, h1, h2]
  refine ⟨?_, ?_, ?_, ?_, ?_, ?_⟩ <;>
    simp [workerStep, processNextWorkItem, syncBehaviorOf, hsync]

/-- Witness for the C6 theorem at a concrete key and lister. -/
theorem c6_not_found_treated_as_success_witness :
    (syncHandler (fun _ _ => ListerResult.notFoundErr) "default/example-submarine").outcome
      = SyncOutcome.returnedNil :=
  (c6_not_found_treated_as_success (fun _ _ => ListerResult.notFoundErr)
    "default/example-submarine" "default" "example-submarine" rfl rfl).1

/-- Claim C7: a dequeued key that cannot be split into namespace and
name makes `syncHandler` log a handling error and return nil; the
worker step still calls `Forget` and `Done`, never `AddRateLimited`,
and returns `true` so processing continues with the next item. -/
theorem c7_malformed_key_dropped
    (lister : String → String → ListerResult) (key : String)
    (h : splitMetaNamespaceKey key = none) :
    (syncHandler lister key).events = [SyncEv.handleErrorInvalidKey key] ∧
    (syncHandler lister key).outcome = SyncOutcome.returnedNil ∧
    WEv.forgetEv key ∈ (workerStep lister (some key)).trace ∧
    WEv.doneEv key ∈ (workerStep lister (some key)).trace ∧
    (∀ k', WEv.addRateLimitedEv k' ∉ (workerStep lister (some key)).trace) ∧
    (workerStep lister (some key)).result = StepResult.cont := by
  have hsync : syncHandler lister key
      = { events := [.handleErrorInvalidKey key], outcome := .returnedNil } := by
    simp [syncHandler, h]
  refine ⟨?_, ?_, ?_, ?_, ?_, ?_⟩ <;>
    simp [workerStep, processNextWorkItem, syncBehaviorOf, hsync]

/-- Witness for the C7 theorem at the concrete malformed key "a/b/c". -/
theorem c7_malformed_key_dropped_witness :
    (syncHandler (fun _ _ => ListerResult.notFoundErr) "a/b/c").events
      = [SyncEv.handleErrorInvalidKey "a/b/c"] :=
  (c7_malformed_key_dropped (fun _ _ => ListerResult.notFoundErr) "a/b/c" rfl).1

/-- Claim C8: both registered handlers enqueue by deriving the key
deterministically with `MetaNamespaceKeyFunc` and calling
`workqueue.Add(key)` unconditionally; the Update handler enqueues from
the new object alone — its result does not depend on the old object. -/
theorem c8_enqueue_unconditional (m : ObjectMeta) (o o1 o2 : NotifObject) :
    dispatch submarineEventHandlers (Notification.addN (NotifObject.withMeta m))
      = [QueueCall.addCall (if m.ns = "" then m.name else m.ns ++ "/" ++ m.name)] ∧
    dispatch submarineEventHandlers (Notification.updateN o (NotifObject.withMeta m))
      = [QueueCall.addCall (if m.ns = "" then m.name else m.ns ++ "/" ++ m.name)] ∧
    (∀ n : NotifObject,
      dispatch submarineEventHandlers (Notification.updateN o1 n)
        = dispatch submarineEventHandlers (Notification.updateN o2 n)) := by
  refine ⟨?_, ?_, ?_⟩ <;>
    simp [dispatch, submarineEventHandlers, enqueueSubmarine, metaNamespaceKeyFunc]

/-- Claim C9: only Add and Update handlers are wired in
`NewController`; no Delete handler is registered, so dispatching a
Delete notification produces no queue call at all. -/
theorem c9_no_delete_handler :
    submarineEventHandlers.deleteFunc = none ∧
    (∀ o, dispatch submarineEventHandlers (Notification.deleteN o) = []) ∧
    (submarineEventHandlers.addFunc.isSome = true ∧
      submarineEventHandlers.updateFunc.isSome = true) := by
  refine ⟨rfl, ?_, rfl, rfl⟩
  intro o
  simp [dispatch, submarineEventHandlers]

/-- Claim C10: when the lister fails with an error that is not
not-found, `syncHandler` does not return early: it reaches the
`klog.Info` line and then dereferences the nil `submarine` pointer at
`submarine.Spec` — the worker step ends in a propagating panic. -/
theorem c10_non_notfound_error_nil_deref
    (lister : String → String → ListerResult) (key ns name : String)
    (h1 : splitMetaNamespaceKey key = some (ns, name))
    (h2 : lister ns name = ListerResult.otherErr) :
    (syncHandler lister key).outcome = SyncOutcome.panickedNilDeref ∧
    (syncHandler lister key).events = [SyncEv.klogSyncing key] ∧
    (workerStep lister (some key)).result = StepResult.panicked := by
  have hsync : syncHandler lister key
      = { events := [.klogSyncing key], outcome := .panickedNilDeref } := by
    simp [syncHandler, h1, h2]
  refine ⟨?_, ?_, ?_⟩ <;>
    simp [workerStep, processNextWorkItem, syncBehaviorOf, hsync]

/-- Witness for the C10 theorem at a concrete key and lister. -/
theorem c10_non_notfound_error_nil_deref_witness :
    (syncHandler (fun _ _ => ListerResult.otherErr) "default/example-submarine").outcome
      = SyncOutcome.panickedNilDeref :=
  (c10_non_notfound_error_nil_deref (fun _ _ => ListerResult.otherErr)
    "default/example-submarine" "default" "example-submarine" rfl rfl).1
